import Mathlib

/-!
Verification of the scheduler package of the empire repository: the
`jsonmessageStatusStream` implementation of the `StatusStream` interface
(`NewJSONMessageStream`, `Publish`, `Done`, `Err`, `Wait`) and the
environment/label map helpers (`merge`, `Env`, `Labels`).

Go values are shallowly embedded:
  * a Go `error` interface value is `Option String` (`none` is the nil error);
  * a Go `map[string]string` reference is `Option (List (String × String))`
    (`none` is the nil map; a non-nil map is its list of entries, whose keys
    are pairwise distinct — Go maps cannot hold a key twice);
  * the `done` channel of the stream is represented by its identity (a `Nat`
    allocation id) together with a `closed` flag held in the stream state:
    the channel is created with `make(chan struct{}, 1)` and is never sent
    on, so a receive on it completes exactly when it has been closed;
  * the byte sink `s.w` is the list of records written to it, in order.
-/

namespace Scheduler

/-- A Go `error` interface value: `none` is the nil error. -/
abbrev GoError := Option String

/-- The entries of a (non-nil) Go `map[string]string`, in some range order. -/
abbrev Entries := List (String × String)

/-- A Go `map[string]string` reference: `none` is the nil map. -/
abbrev GoMap := Option Entries

/-- Go map read `m[k]`: the value stored at `k`, if any. -/
def mapGet (m : Entries) (k : String) : Option String :=
  (m.find? (fun p => p.1 = k)).map (fun p => p.2)

/-- Go map assignment `m[k] = v`: overwrite the entry at `k` if present,
otherwise add a new entry. -/
def mapSet (m : Entries) (k v : String) : Entries :=
  if m.any (fun p => p.1 = k) then
    m.map (fun p => if p.1 = k then (k, v) else p)
  else
    m ++ [(k, v)]

/-- Ranging over a Go map (`for k, v := range env`): a nil map yields no
entries. -/
def rangeOf : GoMap → Entries
  | none => []
  | some l => l

/-- Reading from a possibly-nil Go map: `m[k]` on a nil map yields the zero
value, i.e. the key is absent. -/
def goGet (m : GoMap) (k : String) : Option String :=
  mapGet (rangeOf m) k

/-- The keys of a possibly-nil Go map. -/
def goKeys (m : GoMap) : List String :=
  (rangeOf m).map Prod.fst

/-- A well-formed Go map: its entry list holds each key at most once. -/
def WFMap (m : GoMap) : Prop :=
  (goKeys m).Nodup

instance (m : GoMap) : Decidable (WFMap m) := by
  unfold WFMap; infer_instance

/-- First-defined choice between two optional values: the left one when
present, otherwise the right one. Used to state the right-over-left override
of `merge`. -/
def firstSome : Option String → Option String → Option String
  | some v, _ => some v
  | none, b => b

/-- The body of `merge` from the source:
`merged := make(map[string]string)`, then for each argument map in order,
for each of its entries, `merged[k] = v`. Returns the entries of the
resulting (always non-nil) map. -/
def mergeContent (envs : List GoMap) : Entries :=
  envs.foldl (fun merged env =>
    (rangeOf env).foldl (fun m kv => mapSet m kv.1 kv.2) merged) []

/-- The source's `merge(envs...)`: maps merged right over left; the result is
a freshly made, non-nil map. -/
def merge (envs : List GoMap) : GoMap :=
  some (mergeContent envs)

/-- The fields of `scheduler.App` used by the merge helpers. -/
structure App where
  ID : String
  Release : String
  Name : String
  Env : GoMap
  Labels : GoMap

/-- The fields of `scheduler.Process` used by the merge helpers. -/
structure Process where
  processType : String
  Command : List String
  Env : GoMap
  Labels : GoMap
  Instances : Nat
  MemoryLimit : Nat
  CPUShares : Nat
  Nproc : Nat

/-- The source's `Env(app, process)`: returns `merge(app.Env, process.Env)`. -/
def Env (app : App) (process : Process) : GoMap :=
  merge [app.Env, process.Env]

/-- The source's `Labels(app, process)`: returns
`merge(app.Labels, process.Labels)`. -/
def Labels (app : App) (process : Process) : GoMap :=
  merge [app.Labels, process.Labels]

/-- A heap of allocated Go maps; an index into the list is a map reference.
Used to state frame conditions (`merge` mutates no existing map and returns a
fresh one). -/
abbrev Heap := List Entries

/-- Dereference a possibly-nil map reference against a heap. -/
def derefMap (h : Heap) (r : Option Nat) : GoMap :=
  r.bind (fun i => h.get? i)

/-- The source's `merge` at the allocation level: `make(map[string]string)` allocates a
fresh map on the heap, the loop fills it with the merged content, and the
reference to the fresh map is returned. No existing heap cell is written. -/
def mergeAlloc (h : Heap) (rs : List (Option Nat)) : Heap × Nat :=
  (h ++ [mergeContent (rs.map (derefMap h))], h.length)

/-- The source's `scheduler.Status`: a human-readable progress message. -/
structure Status where
  Message : String

/-- A discrete record written to the stream's sink: a single JSON object
given by its list of (non-empty) fields, terminated by a newline boundary.
`json.Encoder.Encode` writes one JSON value followed by a newline. -/
structure Record where
  fields : List (String × String)
  newlineTerminated : Bool
deriving DecidableEq

/-- Modelled from the spec: encoding
`jsonmessage.JSONMessage{Status: status.Message}` with `json.NewEncoder(w).Encode`
(the `jsonmessage` package is an external dependency, not part of this
repository). Per the spec's wire format, the record is the single JSON object
with one field `status` holding the message, no other non-empty fields, and a
newline boundary after it. -/
def encodeJSONMessage (msg : String) : Record :=
  { fields := [("status", msg)], newlineTerminated := true }

/-- The state of a `jsonmessageStatusStream`:
`doneId` is the identity of the `done` channel (a channel value, returned by
`Wait`), `doneClosed` records whether `close(s.done)` has happened, `err` is
the `err` field, and `sink` is the sequence of records written to `s.w`. -/
structure StreamState where
  doneId : Nat
  doneClosed : Bool
  err : GoError
  sink : List Record
deriving DecidableEq

/-- The source's `NewJSONMessageStream(w)`: a fresh stream whose `done` channel is newly
made (identity `cid`, not closed), whose `err` field is the zero value nil,
and whose sink has seen no writes. -/
def NewJSONMessageStream (cid : Nat) : StreamState :=
  { doneId := cid, doneClosed := false, err := none, sink := [] }

/-- Whether a receive on the stream's `done` channel would complete: the
channel is never sent on, so it is ready exactly when it has been closed. -/
def WaitReady (s : StreamState) : Bool :=
  s.doneClosed

/-- The source's `Publish(ctx, status)`. The `select` first tries to
receive from `s.done`: if that succeeds (the channel is closed), it logs a
warning and returns nil without touching the writer; otherwise the `default`
branch falls through and the JSON record is encoded to `s.w`, whose write
error (`we`, the error the underlying writer produces for this call) is
returned. Returns the new state and the returned error. -/
def Publish (s : StreamState) (status : Status) (we : GoError) :
    StreamState × GoError :=
  if s.doneClosed then
    (s, none)
  else
    ({ s with sink := s.sink ++ [encodeJSONMessage status.Message] }, we)

/-- Go's `close` on a channel, given whether the channel is already closed:
closing an already-closed channel panics with `close of closed channel`. -/
def chanClose (closed : Bool) : Except String Unit :=
  if closed then Except.error "close of closed channel" else Except.ok ()

/-- The source's `Done(err)`: take the mutex, `close(s.done)`, record the
error. There is no closed-check before the `close`, so on an already-closed
stream the call panics with the channel primitive's double-close panic,
modelled as `Except.error`. -/
def Done (s : StreamState) (e : GoError) : Except String StreamState :=
  match chanClose s.doneClosed with
  | Except.error m => Except.error m
  | Except.ok _ => Except.ok { s with doneClosed := true, err := e }

/-- The source's `Err()`: returns the `err` field. -/
def Err (s : StreamState) : GoError :=
  s.err

/-- The source's `Wait()`: returns the `done` channel itself (its
identity). -/
def Wait (s : StreamState) : Nat :=
  s.doneId

/-- An operation invoked on a stream, for stating properties over whole call
sequences. -/
inductive Op
  | publish (status : Status) (we : GoError)
  | done (e : GoError)
  | wait
  | errQuery

/-- Apply one operation to the stream state; `wait` and `errQuery` are pure
reads. A `done` on an already-closed stream panics; the panicking call
performs no state change (the `close` aborts before anything is written). -/
def stepOp (s : StreamState) : Op → StreamState
  | Op.publish st we => (Publish s st we).1
  | Op.done e =>
      match Done s e with
      | Except.ok s' => s'
      | Except.error _ => s
  | Op.wait => s
  | Op.errQuery => s

/-- Apply a sequence of operations in order. -/
def steps (s : StreamState) (ops : List Op) : StreamState :=
  ops.foldl stepOp s

/-- Issue one `Publish` per message, in order, with successful sink
writes. -/
def publishAll (s : StreamState) (msgs : List String) : StreamState :=
  msgs.foldl (fun s m => (Publish s { Message := m } none).1) s

/-- Whether a sequence of operations contains no `done` call. -/
def noDone : List Op → Bool
  | [] => true
  | Op.done _ :: _ => false
  | _ :: rest => noDone rest

/-- The shared locations of a `jsonmessageStatusStream` touched by `Publish`
and `Done`. -/
inductive Loc
  | doneChan   -- the `done` channel
  | errField   -- the `err` field
  | sinkWriter -- the writer `w`
  | mutex      -- the embedded `sync.Mutex`
deriving DecidableEq

/-- Whether a memory access is a read or a write, and whether it goes through
a synchronizing operation. -/
inductive AccessKind
  | syncRead
  | syncWrite
  | plainRead
  | plainWrite
deriving DecidableEq

/-- One shared-memory access: a location and the kind of access. -/
structure Access where
  loc : Loc
  kind : AccessKind
deriving DecidableEq

/-- Locations whose operations synchronize under the Go memory model: channel
operations (`close`, receive) and mutex operations (`Lock`, `Unlock`). -/
def isSyncLoc : Loc → Bool
  | Loc.doneChan => true
  | Loc.mutex => true
  | _ => false

/-- Whether an access kind writes. -/
def isWriteKind : AccessKind → Bool
  | AccessKind.syncWrite => true
  | AccessKind.plainWrite => true
  | _ => false

/-- Shared-state accesses performed by `Publish`, in source order: the
`select` receives from `s.done` (a channel operation, synchronizing), then in
the open branch the encoder writes to `s.w` (a plain write). -/
def publishAccesses : List Access :=
  [⟨Loc.doneChan, AccessKind.syncRead⟩, ⟨Loc.sinkWriter, AccessKind.plainWrite⟩]

/-- Shared-state accesses performed by `Done`, in source order: `s.Lock()`,
`close(s.done)` (a channel operation, synchronizing), `s.err = err` (a plain
write), `s.Unlock()`. -/
def doneAccesses : List Access :=
  [⟨Loc.mutex, AccessKind.syncWrite⟩, ⟨Loc.doneChan, AccessKind.syncWrite⟩,
   ⟨Loc.errField, AccessKind.plainWrite⟩, ⟨Loc.mutex, AccessKind.syncWrite⟩]

/-- The location `Publish` inspects to decide whether the stream is closed:
the receive in `select` on `s.done`. -/
def publishClosedTestLoc : Loc := Loc.doneChan

/-- The location `Done` writes to establish the closed state:
`close(s.done)`. -/
def doneCloseLoc : Loc := Loc.doneChan

/-- Two accesses from different tasks form a data race when they touch the
same location, at least one of them writes, and the location is not a
synchronization primitive. -/
def dataRace (a b : Access) : Bool :=
  decide (a.loc = b.loc) && (isWriteKind a.kind || isWriteKind b.kind)
    && !(isSyncLoc a.loc)

/-- A closed stream is inert: no operation changes its state. `Publish`
returns without writing, a second `done` panics before any state change, and
`wait` and `errQuery` are reads. -/
theorem stepOp_closed (s : StreamState) (op : Op) (h : s.doneClosed = true) :
    stepOp s op = s := by
  cases op <;> simp [stepOp, Publish, Done, chanClose, h]

/-- A closed stream stays inert over any sequence of operations. -/
theorem steps_closed (s : StreamState) (ops : List Op)
    (h : s.doneClosed = true) : steps s ops = s := by
  induction ops with
  | nil => rfl
  | cons op rest ih =>
      show steps (stepOp s op) rest = s
      rw [stepOp_closed s op h, ih]

/-- No operation reassigns the `done` channel: the channel identity is fixed
at construction. -/
theorem stepOp_doneId (s : StreamState) (op : Op) :
    (stepOp s op).doneId = s.doneId := by
  cases op with
  | publish st we =>
      simp [stepOp, Publish]
      split <;> rfl
  | done e =>
      by_cases h : s.doneClosed = true
      · rw [stepOp_closed s (Op.done e) h]
      · have hf : s.doneClosed = false := by simpa using h
        simp [stepOp, Done, chanClose, hf]
  | wait => rfl
  | errQuery => rfl

/-- The channel identity is invariant over any sequence of operations. -/
theorem steps_doneId (s : StreamState) (ops : List Op) :
    (steps s ops).doneId = s.doneId := by
  induction ops generalizing s with
  | nil => rfl
  | cons op rest ih =>
      show (steps (stepOp s op) rest).doneId = s.doneId
      rw [ih, stepOp_doneId]

/-- An operation other than `done` leaves both the closed flag and the
recorded error unchanged. -/
theorem steps_noDone (s : StreamState) (ops : List Op)
    (h : noDone ops = true) :
    (steps s ops).doneClosed = s.doneClosed ∧ (steps s ops).err = s.err := by
  induction ops generalizing s with
  | nil => exact ⟨rfl, rfl⟩
  | cons op rest ih =>
      cases op with
      | publish st we =>
          have h' : noDone rest = true := h
          have := ih ((Publish s st we).1) h'
          have hcl : ((Publish s st we).1).doneClosed = s.doneClosed := by
            simp [Publish]; split <;> rfl
          have herr : ((Publish s st we).1).err = s.err := by
            simp [Publish]; split <;> rfl
          exact ⟨by rw [show steps s (Op.publish st we :: rest)
                    = steps ((Publish s st we).1) rest from rfl, this.1, hcl],
                 by rw [show steps s (Op.publish st we :: rest)
                    = steps ((Publish s st we).1) rest from rfl, this.2, herr]⟩
      | done e => simp [noDone] at h
      | wait => exact ih s h
      | errQuery => exact ih s h

/-- Reading a cons cell: the head answers when its key matches, otherwise the
tail answers. -/
theorem mapGet_cons (a : String × String) (m : Entries) (k : String) :
    mapGet (a :: m) k = if a.1 = k then some a.2 else mapGet m k := by
  by_cases h : a.1 = k <;> simp [mapGet, List.find?, h]

/-- A key held by no entry reads as absent. -/
theorem mapGet_eq_none (m : Entries) (k : String)
    (h : ∀ p ∈ m, p.1 ≠ k) : mapGet m k = none := by
  induction m with
  | nil => rfl
  | cons a t ih =>
      rw [mapGet_cons]
      have ha : a.1 ≠ k := h a (by simp)
      simp [ha]
      exact ih (fun p hp => h p (by simp [hp]))

/-- Appending a fresh entry to a map that does not hold its key: reads of the
fresh key see the new value, other reads are unchanged. -/
theorem mapGet_append_single (m : Entries) (k v k' : String)
    (habs : ∀ p ∈ m, p.1 ≠ k) :
    mapGet (m ++ [(k, v)]) k' = if k' = k then some v else mapGet m k' := by
  induction m with
  | nil =>
      by_cases h : k' = k
      · simp [h, mapGet_cons]
      · have h2 : k ≠ k' := fun hk => h hk.symm
        simp [h, h2, mapGet_cons, mapGet]
  | cons a t ih =>
      have ha : a.1 ≠ k := habs a (by simp)
      have habs' : ∀ p ∈ t, p.1 ≠ k := fun p hp => habs p (by simp [hp])
      show mapGet (a :: (t ++ [(k, v)])) k' = _
      rw [mapGet_cons, mapGet_cons]
      by_cases h1 : a.1 = k'
      · have : k' ≠ k := fun hk => ha (h1.trans hk)
        simp [h1, this]
      · simp [h1, ih habs']

/-- Replacing the entries at key `k` does not change reads of any other
key. -/
theorem mapGet_map_replace_ne (m : Entries) (k v k' : String)
    (hne : k' ≠ k) :
    mapGet (m.map fun p => if p.1 = k then (k, v) else p) k'
      = mapGet m k' := by
  induction m with
  | nil => rfl
  | cons a t ih =>
      by_cases ha : a.1 = k
      · have hk : k ≠ k' := fun hk => hne hk.symm
        have ha' : a.1 ≠ k' := fun h => hne (h.symm.trans ha)
        simp only [List.map_cons, ha, if_pos, mapGet_cons]
        simp [hk, ha', ih]
      · simp only [List.map_cons, mapGet_cons, if_neg ha]
        by_cases h1 : a.1 = k'
        · simp [h1]
        · simp [h1, ih]

/-- Replacing the entries at a key actually held by the map makes that key
read the new value. -/
theorem mapGet_map_replace_eq (m : Entries) (k v : String)
    (hany : m.any (fun p => p.1 = k) = true) :
    mapGet (m.map fun p => if p.1 = k then (k, v) else p) k = some v := by
  induction m with
  | nil => simp at hany
  | cons a t ih =>
      by_cases ha : a.1 = k
      · simp only [List.map_cons, if_pos ha, mapGet_cons]
        simp
      · have hany' : t.any (fun p => p.1 = k) = true := by
          simp only [List.any_cons] at hany
          rcases Bool.or_eq_true_iff.mp hany with h | h
          · exact absurd (of_decide_eq_true h) ha
          · exact h
        simp only [List.map_cons, if_neg ha, mapGet_cons]
        simp [ha, ih hany']

/-- Go map assignment followed by a read: the assigned key reads the new
value, every other key is unchanged. -/
theorem mapGet_mapSet (m : Entries) (k v k' : String) :
    mapGet (mapSet m k v) k' = if k' = k then some v else mapGet m k' := by
  by_cases hany : m.any (fun p => p.1 = k) = true
  · rw [mapSet, if_pos hany]
    by_cases hk : k' = k
    · subst hk
      simp [mapGet_map_replace_eq m k' v hany]
    · simp [hk, mapGet_map_replace_ne m k v k' hk]
  · have habs : ∀ p ∈ m, p.1 ≠ k := by
      intro p hp hpk
      exact hany (List.any_eq_true.mpr ⟨p, hp, decide_eq_true hpk⟩)
    rw [mapSet, if_neg hany]
    exact mapGet_append_single m k v k' habs

/-- Folding Go map assignments over an entry list with pairwise-distinct
keys: a read sees the folded entry when present, otherwise the original
map. -/
theorem mapGet_foldl_mapSet (es : Entries) (m : Entries) (k : String)
    (hnd : (es.map Prod.fst).Nodup) :
    mapGet (es.foldl (fun acc kv => mapSet acc kv.1 kv.2) m) k
      = firstSome (mapGet es k) (mapGet m k) := by
  induction es generalizing m with
  | nil => rfl
  | cons a rest ih =>
      have hnotin : a.1 ∉ rest.map Prod.fst := by
        simp only [List.map_cons, List.nodup_cons] at hnd
        exact hnd.1
      have hndrest : (rest.map Prod.fst).Nodup := by
        simp only [List.map_cons, List.nodup_cons] at hnd
        exact hnd.2
      show mapGet (rest.foldl (fun acc kv => mapSet acc kv.1 kv.2)
          (mapSet m a.1 a.2)) k = _
      rw [ih (mapSet m a.1 a.2) hndrest, mapGet_mapSet, mapGet_cons]
      by_cases hk : a.1 = k
      · have hrest : mapGet rest k = none := by
          apply mapGet_eq_none
          intro p hp hpk
          exact hnotin (hk ▸ hpk ▸ List.mem_map_of_mem Prod.fst hp)
        simp [hk, hrest, firstSome]
      · have hk' : ¬(k = a.1) := fun h => hk h.symm
        simp [hk, hk']

/-- Publishing a list of messages on an open stream appends exactly the
corresponding records to the sink, in order, and changes nothing else. -/
theorem publishAll_open (msgs : List String) (s : StreamState)
    (h : s.doneClosed = false) :
    publishAll s msgs
      = { s with sink := s.sink ++ msgs.map encodeJSONMessage } := by
  induction msgs generalizing s with
  | nil => simp [publishAll]
  | cons m rest ih =>
      have hstep : (Publish s { Message := m } none).1
          = { s with sink := s.sink ++ [encodeJSONMessage m] } := by
        simp [Publish, h]
      have hopen : ({ s with sink := s.sink ++ [encodeJSONMessage m] }
          : StreamState).doneClosed = false := h
      show publishAll ((Publish s { Message := m } none).1) rest = _
      rw [hstep, ih _ hopen]
      simp

/-- Choosing against an absent right value returns the left value. -/
theorem firstSome_none_right (a : Option String) : firstSome a none = a := by
  cases a <;> rfl

/-- The chosen value is present exactly when either side is present. -/
theorem firstSome_isSome (a b : Option String) :
    (firstSome a b).isSome = (a.isSome || b.isSome) := by
  cases a <;> simp [firstSome]

/-- Reading below the length of the left list ignores an appended tail. -/
theorem heap_read_append_left (l1 l2 : Heap) (i : Nat)
    (h : i < l1.length) : (l1 ++ l2).get? i = l1.get? i := by
  induction l1 generalizing i with
  | nil => simp at h
  | cons a t ih =>
      cases i with
      | zero => rfl
      | succ j =>
          have hj : j < t.length := by simpa using h
          exact ih j hj

/-- Reading at the old length of a heap extended by one cell yields the new
cell. -/
theorem heap_read_append_new (l : Heap) (c : Entries) :
    (l ++ [c]).get? l.length = some c := by
  induction l with
  | nil => rfl
  | cons a t ih => exact ih

/-- C1: on a stream created by `NewJSONMessageStream`, once `Done` has been
called every `Publish` returns the nil error and writes nothing to the sink;
while the stream is still open, `Publish` writes exactly one record for the
given status and returns whatever error the sink's write produced. -/
theorem publish_respects_stream_state (s : StreamState) (st : Status)
    (we : GoError) :
    (s.doneClosed = true → Publish s st we = (s, none)) ∧
    (s.doneClosed = false →
      Publish s st we
        = ({ s with sink := s.sink ++ [encodeJSONMessage st.Message] },
           we)) := by
  constructor
  · intro h
    simp [Publish, h]
  · intro h
    simp [Publish, h]

/-- Witness for C1 at a concrete closed stream and a concrete open stream. -/
theorem publish_respects_stream_state_witness :
    Publish { doneId := 0, doneClosed := true, err := none, sink := [] }
        { Message := "late" } (some "boom")
      = ({ doneId := 0, doneClosed := true, err := none, sink := [] },
         none) ∧
    Publish { doneId := 1, doneClosed := false, err := none, sink := [] }
        { Message := "hi" } (some "boom")
      = ({ doneId := 1, doneClosed := false, err := none,
           sink := [encodeJSONMessage "hi"] }, some "boom") := by
  constructor
  · exact (publish_respects_stream_state _ _ _).1 rfl
  · exact (publish_respects_stream_state _ _ _).2 rfl

/-- C2: a single `Done e` on an open stream finalizes it with outcome `e`:
the call succeeds, `Err` returns exactly `e`, the channel returned by `Wait`
is ready, and `Err` still returns `e` after any further operations. -/
theorem done_records_final_outcome (s : StreamState) (e : GoError)
    (h : s.doneClosed = false) :
    ∃ s', Done s e = Except.ok s' ∧ Err s' = e ∧ WaitReady s' = true ∧
      ∀ ops, Err (steps s' ops) = e := by
  refine ⟨{ s with doneClosed := true, err := e }, ?_, rfl, rfl, ?_⟩
  · simp [Done, chanClose, h]
  · intro ops
    rw [steps_closed _ _ rfl]
    rfl

/-- Witness for C2 on a fresh stream finalized with a non-nil error, `Err`
checked after a late publish and a wait. -/
theorem done_records_final_outcome_witness :
    ∃ s', Done (NewJSONMessageStream 0) (some "image pull failed")
        = Except.ok s' ∧ Err s' = some "image pull failed" ∧
      WaitReady s' = true ∧
      ∀ ops, Err (steps s' ops) = some "image pull failed" :=
  done_records_final_outcome (NewJSONMessageStream 0)
    (some "image pull failed") rfl

/-- C3: once `Done` succeeds, the channel returned by `Wait` is ready, stays
ready over any further sequence of operations, and is the very same channel
the stream returned before `Done` ran — so every waiter, early or late,
shares one sticky readiness signal. -/
theorem wait_ready_sticky (s s' : StreamState) (e : GoError)
    (h : Done s e = Except.ok s') :
    WaitReady s' = true ∧
    (∀ ops, WaitReady (steps s' ops) = true) ∧
    (∀ ops, Wait (steps s' ops) = Wait s) := by
  have hs : s' = { s with doneClosed := true, err := e } := by
    by_cases hc : s.doneClosed = true
    · simp [Done, chanClose, hc] at h
    · have hf : s.doneClosed = false := by simpa using hc
      simp [Done, chanClose, hf] at h
      exact h.symm
  subst hs
  refine ⟨rfl, ?_, ?_⟩
  · intro ops
    rw [steps_closed _ _ rfl]
    rfl
  · intro ops
    exact steps_doneId _ _

/-- Witness for C3: a fresh stream finalized with nil, stickiness and channel
identity checked after a late publish, a second (panicking) done, and a
wait. -/
theorem wait_ready_sticky_witness :
    WaitReady { doneId := 7, doneClosed := true, err := none, sink := [] }
      = true ∧
    WaitReady (steps
        { doneId := 7, doneClosed := true, err := none, sink := [] }
        [Op.publish { Message := "late" } none, Op.done (some "again"),
         Op.wait]) = true ∧
    Wait (steps { doneId := 7, doneClosed := true, err := none, sink := [] }
        [Op.publish { Message := "late" } none, Op.done (some "again"),
         Op.wait]) = Wait (NewJSONMessageStream 7) := by
  have h := wait_ready_sticky (NewJSONMessageStream 7)
    { doneId := 7, doneClosed := true, err := none, sink := [] } none rfl
  exact ⟨h.1,
    h.2.1 [Op.publish { Message := "late" } none, Op.done (some "again"),
      Op.wait],
    h.2.2 [Op.publish { Message := "late" } none, Op.done (some "again"),
      Op.wait]⟩

/-- C4 counterexample: the source's `Done` does not guard against a second
call — on an already-finalized stream it reaches `close(s.done)` and fails
with exactly the channel primitive's double-close panic, so the underlying
primitive's double-close behavior, not an explicit guard, decides the
outcome of the second call. -/
theorem done_second_call_unguarded :
    Done { doneId := 0, doneClosed := true, err := none, sink := [] } none
      = Except.error "close of closed channel" ∧
    chanClose true = Except.error "close of closed channel" :=
  ⟨rfl, rfl⟩

/-- C4 amended: after `Done` has been called once, a second `Done` is fatal —
it panics with the channel primitive's double-close panic, there being no
explicit guard — so the second call never silently succeeds. -/
theorem done_twice_fatal (s s1 : StreamState) (e1 e2 : GoError)
    (h : Done s e1 = Except.ok s1) :
    Done s1 e2 = Except.error "close of closed channel" := by
  have h1 : s1.doneClosed = true := by
    by_cases hc : s.doneClosed = true
    · simp [Done, chanClose, hc] at h
    · have hf : s.doneClosed = false := by simpa using hc
      simp [Done, chanClose, hf] at h
      rw [← h]
  simp [Done, chanClose, h1]

/-- Witness for C4 amended: a fresh stream, `Done` once with nil, then `Done`
again with a non-nil error. -/
theorem done_twice_fatal_witness :
    Done { doneId := 0, doneClosed := true, err := none, sink := [] }
        (some "second") = Except.error "close of closed channel" :=
  done_twice_fatal (NewJSONMessageStream 0)
    { doneId := 0, doneClosed := true, err := none, sink := [] }
    none (some "second") rfl

/-- C6: one `Publish` on an open stream writes exactly one record to the
sink: a single JSON object whose only field is `status` holding the status
message, terminated by a newline boundary, with no other fields. -/
theorem publish_record_format (s : StreamState) (st : Status) (we : GoError)
    (h : s.doneClosed = false) :
    (Publish s st we).1.sink
      = s.sink ++ [{ fields := [("status", st.Message)],
                     newlineTerminated := true }] := by
  simp [Publish, h, encodeJSONMessage]

/-- Witness for C6 on a fresh stream and a concrete message. -/
theorem publish_record_format_witness :
    (Publish (NewJSONMessageStream 2) { Message := "creating web" }
        none).1.sink
      = [{ fields := [("status", "creating web")],
           newlineTerminated := true }] :=
  publish_record_format (NewJSONMessageStream 2)
    { Message := "creating web" } none rfl

/-- C7: publishing a list of messages in order on a fresh stream, all
strictly before the single `Done`, leaves exactly the corresponding records
in the sink in call order; they are all present while the stream is still
open, and the `Done` that closes the stream neither adds nor removes a
record. -/
theorem publish_sequence_in_order (cid : Nat) (msgs : List String)
    (e : GoError) :
    (publishAll (NewJSONMessageStream cid) msgs).sink
        = msgs.map encodeJSONMessage ∧
    (publishAll (NewJSONMessageStream cid) msgs).doneClosed = false ∧
    ∃ s', Done (publishAll (NewJSONMessageStream cid) msgs) e
        = Except.ok s' ∧
      s'.sink = msgs.map encodeJSONMessage ∧ s'.doneClosed = true := by
  have h := publishAll_open msgs (NewJSONMessageStream cid) rfl
  have hsink : (publishAll (NewJSONMessageStream cid) msgs).sink
      = msgs.map encodeJSONMessage := by
    rw [h]
    simp [NewJSONMessageStream]
  have hopen : (publishAll (NewJSONMessageStream cid) msgs).doneClosed
      = false := by
    rw [h]
    rfl
  refine ⟨hsink, hopen,
    ⟨{ publishAll (NewJSONMessageStream cid) msgs with
        doneClosed := true, err := e }, ?_, hsink, rfl⟩⟩
  simp [Done, chanClose, hopen]

/-- C10: a stream returned by `NewJSONMessageStream` starts open — before any
`Done` the channel returned by `Wait` is not ready and `Err` returns nil, and
both stay so over any `Done`-free operation sequence — and `Wait` returns the
same channel on every invocation, whatever operations ran in between. -/
theorem new_stream_open_wait_shared (cid : Nat) (ops : List Op)
    (h : noDone ops = true) :
    WaitReady (NewJSONMessageStream cid) = false ∧
    Err (NewJSONMessageStream cid) = none ∧
    WaitReady (steps (NewJSONMessageStream cid) ops) = false ∧
    Err (steps (NewJSONMessageStream cid) ops) = none ∧
    ∀ ops2, Wait (steps (NewJSONMessageStream cid) ops2)
      = Wait (NewJSONMessageStream cid) := by
  have hnd := steps_noDone (NewJSONMessageStream cid) ops h
  exact ⟨rfl, rfl, hnd.1, hnd.2, fun ops2 => steps_doneId _ _⟩

/-- Witness for C10: a fresh stream after one publish and one wait, and
channel identity checked across a sequence that does call `Done`. -/
theorem new_stream_open_wait_shared_witness :
    WaitReady (NewJSONMessageStream 3) = false ∧
    Err (NewJSONMessageStream 3) = none ∧
    WaitReady (steps (NewJSONMessageStream 3)
        [Op.publish { Message := "creating web" } none, Op.wait]) = false ∧
    Err (steps (NewJSONMessageStream 3)
        [Op.publish { Message := "creating web" } none, Op.wait]) = none ∧
    Wait (steps (NewJSONMessageStream 3)
        [Op.publish { Message := "creating web" } none, Op.done none,
         Op.wait]) = Wait (NewJSONMessageStream 3) := by
  have h := new_stream_open_wait_shared 3
    [Op.publish { Message := "creating web" } none, Op.wait] rfl
  exact ⟨h.1, h.2.1, h.2.2.1, h.2.2.2.1,
    h.2.2.2.2 [Op.publish { Message := "creating web" } none, Op.done none,
      Op.wait]⟩

/-- C5: the map returned by `merge` — and hence by `Env` and `Labels` —
holds exactly the union of the keys of the app-level map `A` and the
process-level map `P` (nil maps read as empty): on a key held by both, the
process-level value wins; on a key held by only one, that value is
preserved; and merging two nil maps yields an empty but non-nil map. -/
theorem merge_union_override (A P : GoMap) (hA : WFMap A) (hP : WFMap P) :
    (∀ k, goGet (merge [A, P]) k = firstSome (goGet P k) (goGet A k)) ∧
    (∀ k, (goGet (merge [A, P]) k).isSome
        = ((goGet A k).isSome || (goGet P k).isSome)) ∧
    merge [none, none] = some [] ∧
    (∀ app proc, Env app proc = merge [app.Env, proc.Env]) ∧
    (∀ app proc, Labels app proc = merge [app.Labels, proc.Labels]) := by
  have key : ∀ k, goGet (merge [A, P]) k
      = firstSome (goGet P k) (goGet A k) := by
    intro k
    have h1 : goGet (merge [A, P]) k
        = mapGet ((rangeOf P).foldl (fun acc kv => mapSet acc kv.1 kv.2)
            ((rangeOf A).foldl (fun acc kv => mapSet acc kv.1 kv.2) [])) k :=
      rfl
    rw [h1, mapGet_foldl_mapSet _ _ _ hP, mapGet_foldl_mapSet _ _ _ hA]
    show firstSome (goGet P k) (firstSome (goGet A k) none)
        = firstSome (goGet P k) (goGet A k)
    rw [firstSome_none_right]
  refine ⟨key, ?_, rfl, fun _ _ => rfl, fun _ _ => rfl⟩
  intro k
  rw [key k, firstSome_isSome, Bool.or_comm]

/-- Witness for C5 on concrete app-level and process-level maps sharing the
key `k`. -/
theorem merge_union_override_witness :
    goGet (merge [some [("k", "app"), ("a", "1")],
        some [("k", "proc"), ("b", "2")]]) "k"
      = firstSome (goGet (some [("k", "proc"), ("b", "2")]) "k")
          (goGet (some [("k", "app"), ("a", "1")]) "k") ∧
    goGet (merge [some [("k", "app"), ("a", "1")],
        some [("k", "proc"), ("b", "2")]]) "a"
      = firstSome (goGet (some [("k", "proc"), ("b", "2")]) "a")
          (goGet (some [("k", "app"), ("a", "1")]) "a") ∧
    (goGet (merge [some [("k", "app"), ("a", "1")],
        some [("k", "proc"), ("b", "2")]]) "c").isSome
      = ((goGet (some [("k", "app"), ("a", "1")]) "c").isSome
          || (goGet (some [("k", "proc"), ("b", "2")]) "c").isSome) ∧
    merge [none, none] = some [] := by
  have h := merge_union_override (some [("k", "app"), ("a", "1")])
    (some [("k", "proc"), ("b", "2")]) (by decide) (by decide)
  exact ⟨h.1 "k", h.1 "a", h.2.1 "c", h.2.2.1⟩

/-- C8: the closed-state check in `Publish` and the closed-state transition
in `Done` operate on the very same location — the `done` channel, a
synchronizing primitive under the Go memory model, not a separate
unsynchronized flag — and no pair of accesses performed by concurrently
running `Publish` and `Done` forms a data race. -/
theorem publish_done_race_free :
    publishClosedTestLoc = doneCloseLoc ∧
    isSyncLoc publishClosedTestLoc = true ∧
    (publishAccesses.all fun a =>
      doneAccesses.all fun b => !(dataRace a b)) = true := by
  decide

/-- C9: the source's `merge` never errors, never mutates its input maps —
every heap cell that existed before the call is unchanged, so the app-level
and process-level maps hold exactly their original entries — and returns a
freshly allocated map distinct from both inputs, holding the merged
content. -/
theorem merge_pure_frame (h : Heap) (ra rp : Option Nat)
    (hra : ∀ i, ra = some i → i < h.length)
    (hrp : ∀ i, rp = some i → i < h.length) :
    (∀ i, i < h.length → (mergeAlloc h [ra, rp]).1.get? i = h.get? i) ∧
    derefMap (mergeAlloc h [ra, rp]).1 ra = derefMap h ra ∧
    derefMap (mergeAlloc h [ra, rp]).1 rp = derefMap h rp ∧
    ra ≠ some (mergeAlloc h [ra, rp]).2 ∧
    rp ≠ some (mergeAlloc h [ra, rp]).2 ∧
    (mergeAlloc h [ra, rp]).1.get? (mergeAlloc h [ra, rp]).2
      = some (mergeContent [derefMap h ra, derefMap h rp]) := by
  have hframe : ∀ i, i < h.length →
      (mergeAlloc h [ra, rp]).1.get? i = h.get? i := by
    intro i hi
    exact heap_read_append_left h _ i hi
  refine ⟨hframe, ?_, ?_, ?_, ?_, ?_⟩
  · cases ra with
    | none => rfl
    | some i => exact hframe i (hra i rfl)
  · cases rp with
    | none => rfl
    | some i => exact hframe i (hrp i rfl)
  · intro heq
    have hlt := hra _ heq
    have h2 : (mergeAlloc h [ra, rp]).2 = h.length := rfl
    rw [h2] at hlt
    omega
  · intro heq
    have hlt := hrp _ heq
    have h2 : (mergeAlloc h [ra, rp]).2 = h.length := rfl
    rw [h2] at hlt
    omega
  · exact heap_read_append_new h _

/-- Witness for C9 on a concrete two-cell heap holding the app map and the
process map. -/
theorem merge_pure_frame_witness :
    (mergeAlloc ([[("k", "app")], [("k", "proc")]] : Heap)
        [some 0, some 1]).1.get? 0
      = ([[("k", "app")], [("k", "proc")]] : Heap).get? 0 ∧
    derefMap (mergeAlloc ([[("k", "app")], [("k", "proc")]] : Heap)
        [some 0, some 1]).1 (some 0)
      = derefMap ([[("k", "app")], [("k", "proc")]] : Heap) (some 0) ∧
    some 0 ≠ some (mergeAlloc ([[("k", "app")], [("k", "proc")]] : Heap)
        [some 0, some 1]).2 ∧
    some 1 ≠ some (mergeAlloc ([[("k", "app")], [("k", "proc")]] : Heap)
        [some 0, some 1]).2 ∧
    (mergeAlloc ([[("k", "app")], [("k", "proc")]] : Heap)
        [some 0, some 1]).1.get?
        (mergeAlloc ([[("k", "app")], [("k", "proc")]] : Heap)
          [some 0, some 1]).2
      = some (mergeContent
          [derefMap ([[("k", "app")], [("k", "proc")]] : Heap) (some 0),
           derefMap ([[("k", "app")], [("k", "proc")]] : Heap) (some 1)]) := by
  have h := merge_pure_frame ([[("k", "app")], [("k", "proc")]] : Heap)
    (some 0) (some 1)
    (by intro i hi; cases hi; decide)
    (by intro i hi; cases hi; decide)
  exact ⟨h.1 0 (by decide), h.2.1, h.2.2.2.1, h.2.2.2.2.1, h.2.2.2.2.2⟩

end Scheduler
